import Mathlib

/-!
Verification of the trinkets event-sourced dependency-graph store.

This file gives a shallow embedding, in Lean 4, of the core data model and
operations of the repository (`src/adt.ts`, `src/domain_materialize.ts`,
`src/query.ts`, the index builder, the invariant checker in `domain.ts`,
the JSONL store scan loop, and the lock prologue of the incremental heads
store), and proves the specified properties about them.

JavaScript `Map` values (insertion-ordered, unique keys, `set` updating an
existing key in place) are modelled by association lists with a `setA`
operation that replaces in place or appends at the end; JavaScript `Set`
(insertion-ordered, deduplicating `add`) is modelled by `setInsert` on
lists.
-/

namespace Trinkets

/-- Issue workflow states; `openS` embeds the string enum value "open". -/
inductive IssueStatus
| openS
| doing
| done
| canceled
deriving DecidableEq, Repr

/-- Issue classification kinds from adt.ts. -/
inductive IssueKind
| feature
| bug
| chore
| note
| epic
deriving DecidableEq, Repr

/-- Dependency link types; `parentChild` embeds "parent-child",
`discoveredFrom` embeds "discovered-from". -/
inductive DepType
| blocks
| parentChild
| related
| discoveredFrom
deriving DecidableEq, Repr

/-- An issue record as in adt.ts.  The optional `body` and `closedAt`
fields become `Option String`; `priority` (0..3 in TS) becomes `Nat`. -/
structure Issue where
  id : String
  title : String
  body : Option String
  kind : IssueKind
  priority : Nat
  status : IssueStatus
  labels : List String
  createdAt : String
  updatedAt : String
  closedAt : Option String
deriving DecidableEq, Repr

/-- A directed dependency link; the TS field `from` is embedded as `src`
(Lean reserves the word). -/
structure Link where
  src : String
  dst : String
  type : DepType
  createdAt : String
deriving DecidableEq, Repr

/-- The partial field patch carried by an IssuePatched event
(`Partial<Pick<Issue, "title" | "body" | "priority" | "labels" | "kind">>`):
a field that is `none` is absent from the patch object. -/
structure IssuePatch where
  title : Option String
  body : Option String
  priority : Option Nat
  labels : Option (List String)
  kind : Option IssueKind
deriving DecidableEq, Repr

/-- The event discriminated union from adt.ts. -/
inductive Event
| issueCreated (issue : Issue)
| issuePatched (id : String) (patch : IssuePatch) (updatedAt : String)
| issueStatusSet (id : String) (status : IssueStatus) (atTime : String)
| linkAdded (link : Link)
| linkRemoved (src dst : String) (type : DepType) (atTime : String)
deriving DecidableEq, Repr

/-- Association-list model of a JavaScript `Map`. -/
abbrev AList (κ α : Type) := List (κ × α)

/-- `Map.get`: the value at the first (and, for genuine maps, only)
occurrence of the key. -/
def getA {κ α : Type} [DecidableEq κ] : AList κ α → κ → Option α
| [], _ => none
| (k, v) :: t, key => if k = key then some v else getA t key

/-- `Map.set`: replace the value at an existing key in place, otherwise
append the binding at the end — exactly the JS Map insertion-order
behavior. -/
def setA {κ α : Type} [DecidableEq κ] : AList κ α → κ → α → AList κ α
| [], key, v => [(key, v)]
| (k, w) :: t, key, v => if k = key then (key, v) :: t else (k, w) :: setA t key v

/-- The materialized graph state from adt.ts: issues by id plus two
adjacency maps. -/
structure GraphState where
  issues : AList String Issue
  outgoing : AList String (List Link)
  incoming : AList String (List Link)
deriving DecidableEq, Repr

/-- The empty graph state `materializeFromEvents` starts from. -/
def emptyGraph : GraphState := { issues := [], outgoing := [], incoming := [] }

/-- The shallow merge `\x7b ...cur, ...e.patch, updatedAt: e.updatedAt \x7d`
performed by the IssuePatched case. -/
def applyPatch (cur : Issue) (p : IssuePatch) (updatedAt : String) : Issue :=
  { cur with
    title := p.title.getD cur.title
    body := match p.body with | some b => some b | none => cur.body
    priority := p.priority.getD cur.priority
    labels := p.labels.getD cur.labels
    kind := p.kind.getD cur.kind
    updatedAt := updatedAt }

/-- The edge test `x.to === to && x.type === type` used on outgoing
buckets by LinkAdded and LinkRemoved. -/
def outMatch (dst : String) (ty : DepType) : Link → Bool :=
  fun x => decide (x.dst = dst) && decide (x.type = ty)

/-- The edge test `x.from === from && x.type === type` used on incoming
buckets by LinkAdded and LinkRemoved. -/
def inMatch (src : String) (ty : DepType) : Link → Bool :=
  fun x => decide (x.src = src) && decide (x.type = ty)

/-- Direct embedding of `applyEvent` from domain_materialize.ts.  The JS
code copies the three maps and mutates the copies; here each case rebuilds
the structure with the corresponding functional update. -/
def applyEvent (g : GraphState) (e : Event) : GraphState :=
  match e with
  | .issueCreated issue => { g with issues := setA g.issues issue.id issue }
  | .issuePatched id patch updatedAt =>
    match getA g.issues id with
    | some cur => { g with issues := setA g.issues id (applyPatch cur patch updatedAt) }
    | none => g
  | .issueStatusSet id status atTime =>
    match getA g.issues id with
    | some cur =>
      let upd : Issue :=
        { cur with
          status := status
          updatedAt := atTime
          closedAt := if status = .done then some atTime else cur.closedAt }
      { g with issues := setA g.issues id upd }
    | none => g
  | .linkAdded l =>
    let out := (getA g.outgoing l.src).getD []
    let inc := (getA g.incoming l.dst).getD []
    let outgoing :=
      if out.any (outMatch l.dst l.type) then g.outgoing
      else setA g.outgoing l.src (out ++ [l])
    let incoming :=
      if inc.any (inMatch l.src l.type) then g.incoming
      else setA g.incoming l.dst (inc ++ [l])
    { g with outgoing := outgoing, incoming := incoming }
  | .linkRemoved src dst ty _atTime =>
    { g with
      outgoing := setA g.outgoing src
        (((getA g.outgoing src).getD []).filter (fun x => !(outMatch dst ty x)))
      incoming := setA g.incoming dst
        (((getA g.incoming dst).getD []).filter (fun x => !(inMatch src ty x))) }

/-- `materializeFromEvents`: left fold of `applyEvent` over the empty
state. -/
def materializeFromEvents (events : List Event) : GraphState :=
  events.foldl applyEvent emptyGraph

/- Basic lookup lemmas about the Map model. -/

theorem getA_setA_self {α : Type} (m : AList String α) (k : String) (v : α) :
    getA (setA m k v) k = some v := by
  induction m with
  | nil => simp [setA, getA]
  | cons hd t ih =>
    obtain ⟨k', w⟩ := hd
    by_cases h : k' = k
    · subst h; simp [setA, getA]
    · simp [setA, getA, h, ih]

theorem getA_setA_ne {α : Type} (m : AList String α) (k j : String) (v : α)
    (h : j ≠ k) : getA (setA m k v) j = getA m j := by
  induction m with
  | nil => simp [setA, getA, Ne.symm h]
  | cons hd t ih =>
    obtain ⟨a, w⟩ := hd
    by_cases hk : a = k
    · subst hk
      simp [setA, getA, Ne.symm h]
    · by_cases hj : a = j
      · subst hj; simp [setA, getA, hk]
      · simp [setA, getA, hk, hj, ih]

theorem isSome_getA_setA {α : Type} (m : AList String α) (k j : String) (v : α)
    (h : (getA m j).isSome) : (getA (setA m k v) j).isSome := by
  by_cases hj : j = k
  · subst hj; simp [getA_setA_self]
  · rw [getA_setA_ne m k j v hj]; exact h

/-- Along any single event, the issue map never loses a key: no event
variant deletes an issue. -/
theorem applyEvent_issues_mono (g : GraphState) (e : Event) (id : String)
    (h : (getA g.issues id).isSome) : (getA (applyEvent g e).issues id).isSome := by
  cases e with
  | issueCreated issue => exact isSome_getA_setA _ _ _ _ h
  | issuePatched pid patch updatedAt =>
    simp only [applyEvent]
    cases hcur : getA g.issues pid with
    | none => exact h
    | some cur => exact isSome_getA_setA _ _ _ _ h
  | issueStatusSet pid status atTime =>
    simp only [applyEvent]
    cases hcur : getA g.issues pid with
    | none => exact h
    | some cur => exact isSome_getA_setA _ _ _ _ h
  | linkAdded l => simpa [applyEvent] using h
  | linkRemoved src dst ty atTime => simpa [applyEvent] using h

theorem foldl_issues_mono (S : List Event) (g : GraphState) (id : String)
    (h : (getA g.issues id).isSome) :
    (getA (S.foldl applyEvent g).issues id).isSome := by
  induction S generalizing g with
  | nil => exact h
  | cons e rest ih => exact ih _ (applyEvent_issues_mono g e id h)

/-- Claim C1: incremental replay equivalence — folding `applyEvent` over
`materializeFromEvents P` for the events of `S` equals
`materializeFromEvents (P ++ S)`. -/
theorem materialize_incremental_equiv (P S : List Event) :
    S.foldl applyEvent (materializeFromEvents P) = materializeFromEvents (P ++ S) := by
  simp [materializeFromEvents, List.foldl_append]

/-- Claim C10: issues are never removed — every issue id present in `g`
survives any single event, and every id materialized from a prefix is
present after materializing any extension. -/
theorem issues_never_removed :
    (∀ (g : GraphState) (e : Event) (id : String),
      (getA g.issues id).isSome → (getA (applyEvent g e).issues id).isSome) ∧
    (∀ (P S : List Event) (id : String),
      (getA (materializeFromEvents P).issues id).isSome →
      (getA (materializeFromEvents (P ++ S)).issues id).isSome) := by
  refine ⟨applyEvent_issues_mono, fun P S id h => ?_⟩
  rw [← materialize_incremental_equiv]
  exact foldl_issues_mono S _ id h

/-- A sample issue used by concrete witnesses. -/
def issueA : Issue :=
  { id := "bd-a", title := "A", body := none, kind := .feature, priority := 1,
    status := .openS, labels := [], createdAt := "2024-01-01T00:00:00.000Z",
    updatedAt := "2024-01-01T00:00:00.000Z", closedAt := none }

/-- Witness for C10: the conjuncts applied at a concrete state and event. -/
theorem issues_never_removed_witness :
    (getA (applyEvent (materializeFromEvents [.issueCreated issueA])
      (.issueStatusSet "bd-a" .done "2024-01-02T00:00:00.000Z")).issues "bd-a").isSome := by
  exact issues_never_removed.1 _ _ _ (by decide)

/-- Claim C3: IssueStatusSet leaves the state unchanged for an absent id;
for a present id it sets status and updatedAt, sets closedAt to the event
time exactly when the new status is done, keeps closedAt otherwise, leaves
every other issue and both adjacency maps untouched. -/
theorem issueStatusSet_semantics (g : GraphState) (id : String)
    (status : IssueStatus) (atTime : String) :
    (getA g.issues id = none → applyEvent g (.issueStatusSet id status atTime) = g) ∧
    (∀ cur, getA g.issues id = some cur →
      getA (applyEvent g (.issueStatusSet id status atTime)).issues id =
        some { cur with
               status := status
               updatedAt := atTime
               closedAt := if status = .done then some atTime else cur.closedAt } ∧
      (∀ j, j ≠ id →
        getA (applyEvent g (.issueStatusSet id status atTime)).issues j = getA g.issues j) ∧
      (applyEvent g (.issueStatusSet id status atTime)).outgoing = g.outgoing ∧
      (applyEvent g (.issueStatusSet id status atTime)).incoming = g.incoming) := by
  constructor
  · intro h
    simp [applyEvent, h]
  · intro cur h
    refine ⟨?_, ?_, ?_, ?_⟩
    · simp [applyEvent, h, getA_setA_self]
    · intro j hj
      simp only [applyEvent, h]
      exact getA_setA_ne g.issues id j _ hj
    · simp [applyEvent, h]
    · simp [applyEvent, h]

/-- Witness for C3: the absent-id case on the empty graph, and the
present-id case moving the sample issue to done. -/
theorem issueStatusSet_semantics_witness :
    applyEvent emptyGraph (.issueStatusSet "bd-a" .done "T1") = emptyGraph ∧
    getA (applyEvent (materializeFromEvents [.issueCreated issueA])
        (.issueStatusSet "bd-a" .done "T2")).issues "bd-a" =
      some { issueA with status := .done, updatedAt := "T2", closedAt := some "T2" } := by
  constructor
  · exact (issueStatusSet_semantics emptyGraph "bd-a" .done "T1").1 (by decide)
  · have h := ((issueStatusSet_semantics (materializeFromEvents [.issueCreated issueA])
      "bd-a" .done "T2").2 issueA (by decide)).1
    simpa using h

/-- The store error discriminated union from ports.ts.  Note that
`parseError` carries a line number, the raw content and a reason, but no
file path. -/
inductive StoreError
| diskFull (path : String)
| permissionDenied (path operation : String)
| parseError (line : Nat) (content reason : String)
| lockTimeout (path : String) (timeoutMs : Nat)
| corruption (path reason : String)
deriving DecidableEq, Repr

/-- The error value produced by the self-link guard in `addLink`
(domain.ts). -/
def selfLinkError : StoreError := .corruption "<domain>" "self link not allowed"

/-- Embedding of `addLink` from domain.ts.  The store is modelled by its
event log together with an arbitrary `appendFn` describing whatever the
store's append operation would do; the self-link guard runs before any
use of `appendFn`. -/
def addLink (appendFn : Event → List Event → Except StoreError Unit × List Event)
    (log : List Event) (now src dst : String) (ty : DepType) :
    Except StoreError Unit × List Event :=
  if src = dst then (.error selfLinkError, log)
  else appendFn (.linkAdded { src := src, dst := dst, type := ty, createdAt := now }) log

/-- Claim C7: for every store behavior and log, a self-link is rejected
with an error and the log is returned unchanged — the append operation is
never consulted. -/
theorem addLink_self_rejected
    (appendFn : Event → List Event → Except StoreError Unit × List Event)
    (log : List Event) (now x : String) (ty : DepType) :
    addLink appendFn log now x x ty = (.error selfLinkError, log) := by
  simp [addLink]

/-- Character-list test for "pat occurs at the head of the list". -/
def leadsWith : List Char → List Char → Bool
| [], _ => true
| _ :: _, [] => false
| p :: ps, c :: cs => decide (p = c) && leadsWith ps cs

/-- Character-list test for "pat occurs somewhere in the list". -/
def hasSubList (pat : List Char) : List Char → Bool
| [] => pat.isEmpty
| c :: cs => leadsWith pat (c :: cs) || hasSubList pat cs

/-- JS `String.prototype.includes`. -/
def containsSub (s pat : String) : Bool := hasSubList pat.data s.data

/-- Outcome of the lock-acquisition attempt at the top of the heads-v2
store's `materialize` (integrity.ts): the open of the lock file and the
race between `lock(false)` and the timeout either succeeds, or the race
rejects (rethrown as the message "Lock timeout on materialize"), or the
open of the lock file itself throws with some message. -/
inductive LockAttempt
| acquired
| raceRejected
| openFailed (message : String)
deriving DecidableEq, Repr

/-- The catch handler of the lock prologue: an error whose message
mentions "Lock timeout" fails the call with a LockTimeout store error;
any other failure logs a warning and falls through without the lock. -/
def materializeLockPrologue (lockPath : String) (timeoutMs : Nat) :
    LockAttempt → Except StoreError Unit
| .acquired => .ok ()
| .raceRejected =>
  if containsSub "Lock timeout on materialize" "Lock timeout" then
    .error (.lockTimeout lockPath timeoutMs)
  else .ok ()
| .openFailed msg =>
  if containsSub msg "Lock timeout" then .error (.lockTimeout lockPath timeoutMs)
  else .ok ()

/-- The heads-v2 `materialize` with its post-lock body abstracted: the
body (meta read, tail read, snapshot fold, persistence) never consults
whether the lock was actually held, so it is passed as an opaque result. -/
def headsMaterialize (lockPath : String) (timeoutMs : Nat) (attempt : LockAttempt)
    (body : Except StoreError GraphState) : Except StoreError GraphState :=
  match materializeLockPrologue lockPath timeoutMs attempt with
  | .error e => .error e
  | .ok _ => body

/-- Counterexample for C2: hitting the lock timeout makes `materialize`
fail with a LockTimeout error instead of proceeding without the lock. -/
theorem headsMaterialize_timeout_fails :
    headsMaterialize ".trinkets/.lock" 5000 .raceRejected (.ok emptyGraph) =
      .error (.lockTimeout ".trinkets/.lock" 5000) := by
  have h : containsSub "Lock timeout on materialize" "Lock timeout" = true := by decide
  simp [headsMaterialize, materializeLockPrologue, h]

/-- Claim C2 (amended): only a failure to open the lock file (with a
message not mentioning a lock timeout) proceeds without the lock; a
successful acquisition proceeds; a lock-race rejection — in particular the
timeout — fails the whole call with a LockTimeout error. -/
theorem headsMaterialize_lock_behavior (lockPath : String) (timeoutMs : Nat)
    (body : Except StoreError GraphState) (msg : String) :
    (containsSub msg "Lock timeout" = false →
      headsMaterialize lockPath timeoutMs (.openFailed msg) body = body) ∧
    (headsMaterialize lockPath timeoutMs .acquired body = body) ∧
    (headsMaterialize lockPath timeoutMs .raceRejected body =
      .error (.lockTimeout lockPath timeoutMs)) := by
  refine ⟨fun h => ?_, rfl, ?_⟩
  · simp [headsMaterialize, materializeLockPrologue, h]
  · have : containsSub "Lock timeout on materialize" "Lock timeout" = true := by decide
    simp [headsMaterialize, materializeLockPrologue, this]

/-- Witness for the amended C2: a concrete open failure proceeds with the
abstracted body result. -/
theorem headsMaterialize_lock_behavior_witness :
    headsMaterialize ".trinkets/.lock" 5000
      (.openFailed "EACCES: permission denied") (.ok emptyGraph) = .ok emptyGraph := by
  exact (headsMaterialize_lock_behavior ".trinkets/.lock" 5000 (.ok emptyGraph)
    "EACCES: permission denied").1 (by decide)

/- Link-bucket invariants for the idempotent re-add property. -/

/-- The exact (from,to,type) triple predicate on an edge. -/
def tripleP (src dst : String) (ty : DepType) : Link → Bool :=
  fun x => decide (x.src = src) && decide (x.dst = dst) && decide (x.type = ty)

/-- Number of edges with the given (from,to,type) triple in a bucket. -/
def countTriple (ls : List Link) (src dst : String) (ty : DepType) : Nat :=
  ls.countP (tripleP src dst ty)

/-- Well-formedness of an outgoing bucket keyed by `k`: every edge starts
at `k`, and each (to,type) pair occurs at most once — the invariant the
LinkAdded guard maintains. -/
def OutBucketOk (k : String) (ls : List Link) : Prop :=
  (∀ x ∈ ls, x.src = k) ∧ ∀ d ty, ls.countP (outMatch d ty) ≤ 1

/-- Well-formedness of an incoming bucket keyed by `k`. -/
def InBucketOk (k : String) (ls : List Link) : Prop :=
  (∀ x ∈ ls, x.dst = k) ∧ ∀ s ty, ls.countP (inMatch s ty) ≤ 1

/-- Adjacency well-formedness of a whole graph state. -/
def LinksWF (g : GraphState) : Prop :=
  (∀ k ls, getA g.outgoing k = some ls → OutBucketOk k ls) ∧
  (∀ k ls, getA g.incoming k = some ls → InBucketOk k ls)

theorem outBucketOk_filter (k : String) (ls : List Link) (p : Link → Bool)
    (h : OutBucketOk k ls) : OutBucketOk k (ls.filter p) := by
  refine ⟨fun x hx => h.1 x (List.mem_of_mem_filter hx), fun d ty => ?_⟩
  refine le_trans ?_ (h.2 d ty)
  rw [List.countP_filter]
  exact List.countP_mono_left (fun a _ hpa => by
    simpa using (Bool.and_eq_true _ _ |>.mp hpa).1)

theorem inBucketOk_filter (k : String) (ls : List Link) (p : Link → Bool)
    (h : InBucketOk k ls) : InBucketOk k (ls.filter p) := by
  refine ⟨fun x hx => h.1 x (List.mem_of_mem_filter hx), fun s ty => ?_⟩
  refine le_trans ?_ (h.2 s ty)
  rw [List.countP_filter]
  exact List.countP_mono_left (fun a _ hpa => by
    simpa using (Bool.and_eq_true _ _ |>.mp hpa).1)

theorem outBucketOk_append (l : Link) (out : List Link)
    (hall : ∀ x ∈ out, x.src = l.src)
    (hdedup : ∀ d ty, out.countP (outMatch d ty) ≤ 1)
    (hnone : out.any (outMatch l.dst l.type) = false) :
    OutBucketOk l.src (out ++ [l]) := by
  constructor
  · intro x hx
    rcases List.mem_append.mp hx with hx | hx
    · exact hall x hx
    · simp only [List.mem_singleton] at hx; subst hx; rfl
  · intro d ty
    rw [List.countP_append]
    by_cases hm : outMatch d ty l = true
    · have h0 : out.countP (outMatch d ty) = 0 := by
        rw [List.countP_eq_zero]
        intro a ha
        have hdt : l.dst = d ∧ l.type = ty := by
          have := hm
          simp [outMatch] at this
          exact this
        have := List.any_eq_false.mp hnone a ha
        simp only [outMatch] at *
        rw [← hdt.1, ← hdt.2]
        exact this
      rw [h0]
      simp [List.countP_cons, hm]
    · have h1 : List.countP (outMatch d ty) [l] = 0 := by
        simp [List.countP_eq_zero, hm]
      rw [h1]
      simpa using hdedup d ty

theorem inBucketOk_append (l : Link) (inc : List Link)
    (hall : ∀ x ∈ inc, x.dst = l.dst)
    (hdedup : ∀ s ty, inc.countP (inMatch s ty) ≤ 1)
    (hnone : inc.any (inMatch l.src l.type) = false) :
    InBucketOk l.dst (inc ++ [l]) := by
  constructor
  · intro x hx
    rcases List.mem_append.mp hx with hx | hx
    · exact hall x hx
    · simp only [List.mem_singleton] at hx; subst hx; rfl
  · intro s ty
    rw [List.countP_append]
    by_cases hm : inMatch s ty l = true
    · have h0 : inc.countP (inMatch s ty) = 0 := by
        rw [List.countP_eq_zero]
        intro a ha
        have hdt : l.src = s ∧ l.type = ty := by
          have := hm
          simp [inMatch] at this
          exact this
        have := List.any_eq_false.mp hnone a ha
        simp only [inMatch] at *
        rw [← hdt.1, ← hdt.2]
        exact this
      rw [h0]
      simp [List.countP_cons, hm]
    · have h1 : List.countP (inMatch s ty) [l] = 0 := by
        simp [List.countP_eq_zero, hm]
      rw [h1]
      simpa using hdedup s ty

/-- Adjacency well-formedness is preserved by every event. -/
theorem linksWF_applyEvent (g : GraphState) (e : Event) (h : LinksWF g) :
    LinksWF (applyEvent g e) := by
  obtain ⟨ho, hi⟩ := h
  cases e with
  | issueCreated issue => exact ⟨ho, hi⟩
  | issuePatched id patch updatedAt =>
    simp only [applyEvent]
    cases hcur : getA g.issues id with
    | none => exact ⟨ho, hi⟩
    | some cur => exact ⟨ho, hi⟩
  | issueStatusSet id status atTime =>
    simp only [applyEvent]
    cases hcur : getA g.issues id with
    | none => exact ⟨ho, hi⟩
    | some cur => exact ⟨ho, hi⟩
  | linkAdded l =>
    constructor
    · intro k ls hget
      simp only [applyEvent] at hget
      by_cases hc : ((getA g.outgoing l.src).getD []).any (outMatch l.dst l.type) = true
      · rw [if_pos hc] at hget
        exact ho k ls hget
      · rw [if_neg hc] at hget
        by_cases hk : k = l.src
        · subst hk
          rw [getA_setA_self] at hget
          cases hget
          cases hout : getA g.outgoing l.src with
          | none =>
            simp only [Option.getD_none] at hc ⊢
            exact outBucketOk_append l [] (by simp) (by simp) (by simp)
          | some out0 =>
            rw [hout] at hc
            simp only [Option.getD_some] at hc ⊢
            exact outBucketOk_append l out0 ((ho _ _ hout).1) ((ho _ _ hout).2)
              (Bool.not_eq_true _ |>.mp hc)
        · rw [getA_setA_ne _ _ _ _ hk] at hget
          exact ho k ls hget
    · intro k ls hget
      simp only [applyEvent] at hget
      by_cases hc : ((getA g.incoming l.dst).getD []).any (inMatch l.src l.type) = true
      · rw [if_pos hc] at hget
        exact hi k ls hget
      · rw [if_neg hc] at hget
        by_cases hk : k = l.dst
        · subst hk
          rw [getA_setA_self] at hget
          cases hget
          cases hinc : getA g.incoming l.dst with
          | none =>
            simp only [Option.getD_none] at hc ⊢
            exact inBucketOk_append l [] (by simp) (by simp) (by simp)
          | some inc0 =>
            rw [hinc] at hc
            simp only [Option.getD_some] at hc ⊢
            exact inBucketOk_append l inc0 ((hi _ _ hinc).1) ((hi _ _ hinc).2)
              (Bool.not_eq_true _ |>.mp hc)
        · rw [getA_setA_ne _ _ _ _ hk] at hget
          exact hi k ls hget
  | linkRemoved src dst ty atTime =>
    constructor
    · intro k ls hget
      simp only [applyEvent] at hget
      by_cases hk : k = src
      · subst hk
        rw [getA_setA_self] at hget
        cases hget
        cases hout : getA g.outgoing k with
        | none =>
          refine ⟨?_, ?_⟩ <;> simp
        | some out0 =>
          simp only [Option.getD_some]
          exact outBucketOk_filter k out0 _ (ho _ _ hout)
      · rw [getA_setA_ne _ _ _ _ hk] at hget
        exact ho k ls hget
    · intro k ls hget
      simp only [applyEvent] at hget
      by_cases hk : k = dst
      · subst hk
        rw [getA_setA_self] at hget
        cases hget
        cases hinc : getA g.incoming k with
        | none =>
          refine ⟨?_, ?_⟩ <;> simp
        | some inc0 =>
          simp only [Option.getD_some]
          exact inBucketOk_filter k inc0 _ (hi _ _ hinc)
      · rw [getA_setA_ne _ _ _ _ hk] at hget
        exact hi k ls hget

theorem linksWF_empty : LinksWF emptyGraph := by
  constructor <;> intro k ls h <;> simp [emptyGraph, getA] at h

theorem linksWF_materialize (es : List Event) : LinksWF (materializeFromEvents es) := by
  have : ∀ (g : GraphState), LinksWF g → LinksWF (es.foldl applyEvent g) := by
    induction es with
    | nil => exact fun g h => h
    | cons e rest ih => exact fun g h => ih _ (linksWF_applyEvent g e h)
  exact this emptyGraph linksWF_empty

/-- Re-adding a link whose (to,type) and (from,type) probes already
succeed is a literal no-op on the state. -/
theorem linkAdded_noop (g : GraphState) (l : Link)
    (h1 : ((getA g.outgoing l.src).getD []).any (outMatch l.dst l.type) = true)
    (h2 : ((getA g.incoming l.dst).getD []).any (inMatch l.src l.type) = true) :
    applyEvent g (.linkAdded l) = g := by
  simp only [applyEvent, h1, h2, if_true]

theorem linkAdded_probe_out (g : GraphState) (l : Link) :
    ((getA (applyEvent g (.linkAdded l)).outgoing l.src).getD []).any
      (outMatch l.dst l.type) = true := by
  simp only [applyEvent]
  by_cases hc : ((getA g.outgoing l.src).getD []).any (outMatch l.dst l.type) = true
  · rw [if_pos hc]; exact hc
  · rw [if_neg hc, getA_setA_self]
    simp [List.any_append, outMatch]

theorem linkAdded_probe_in (g : GraphState) (l : Link) :
    ((getA (applyEvent g (.linkAdded l)).incoming l.dst).getD []).any
      (inMatch l.src l.type) = true := by
  simp only [applyEvent]
  by_cases hc : ((getA g.incoming l.dst).getD []).any (inMatch l.src l.type) = true
  · rw [if_pos hc]; exact hc
  · rw [if_neg hc, getA_setA_self]
    simp [List.any_append, inMatch]

theorem linkAdded_idem (g : GraphState) (l : Link) :
    applyEvent (applyEvent g (.linkAdded l)) (.linkAdded l) = applyEvent g (.linkAdded l) :=
  linkAdded_noop _ l (linkAdded_probe_out g l) (linkAdded_probe_in g l)

/-- On a well-formed state, adding a link leaves exactly one edge with its
triple in the outgoing bucket of its source. -/
theorem linkAdded_count_out (g : GraphState) (l : Link) (hwf : LinksWF g) :
    countTriple ((getA (applyEvent g (.linkAdded l)).outgoing l.src).getD [])
      l.src l.dst l.type = 1 := by
  simp only [applyEvent, countTriple]
  by_cases hc : ((getA g.outgoing l.src).getD []).any (outMatch l.dst l.type) = true
  · rw [if_pos hc]
    cases hout : getA g.outgoing l.src with
    | none => rw [hout] at hc; simp at hc
    | some out0 =>
      rw [hout] at hc
      simp only [Option.getD_some] at hc ⊢
      have hcongr : out0.countP (tripleP l.src l.dst l.type) = out0.countP (outMatch l.dst l.type) := by
        refine List.countP_congr (fun x hx => ?_)
        have hsrc := (hwf.1 _ _ hout).1 x hx
        simp [tripleP, outMatch, hsrc]
      rw [hcongr]
      have hpos : 0 < out0.countP (outMatch l.dst l.type) := by
        rw [List.countP_pos_iff]
        exact List.any_eq_true.mp hc
      have hle := (hwf.1 _ _ hout).2 l.dst l.type
      omega
  · rw [if_neg hc, getA_setA_self]
    simp only [Option.getD_some]
    rw [List.countP_append]
    have h0 : ((getA g.outgoing l.src).getD []).countP (tripleP l.src l.dst l.type) = 0 := by
      rw [List.countP_eq_zero]
      intro a ha
      have := List.any_eq_false.mp (Bool.not_eq_true _ |>.mp hc) a ha
      simp only [outMatch] at this
      simp only [tripleP]
      intro hcontra
      rcases Bool.and_eq_true _ _ |>.mp hcontra with ⟨h1, h3⟩
      rcases Bool.and_eq_true _ _ |>.mp h1 with ⟨_, h2⟩
      exact this (Bool.and_eq_true _ _ |>.mpr ⟨h2, h3⟩)
    rw [h0]
    simp [tripleP]

/-- On a well-formed state, adding a link leaves exactly one edge with its
triple in the incoming bucket of its target. -/
theorem linkAdded_count_in (g : GraphState) (l : Link) (hwf : LinksWF g) :
    countTriple ((getA (applyEvent g (.linkAdded l)).incoming l.dst).getD [])
      l.src l.dst l.type = 1 := by
  simp only [applyEvent, countTriple]
  by_cases hc : ((getA g.incoming l.dst).getD []).any (inMatch l.src l.type) = true
  · rw [if_pos hc]
    cases hinc : getA g.incoming l.dst with
    | none => rw [hinc] at hc; simp at hc
    | some inc0 =>
      rw [hinc] at hc
      simp only [Option.getD_some] at hc ⊢
      have hcongr : inc0.countP (tripleP l.src l.dst l.type) = inc0.countP (inMatch l.src l.type) := by
        refine List.countP_congr (fun x hx => ?_)
        have hdst := (hwf.2 _ _ hinc).1 x hx
        simp [tripleP, inMatch, hdst]
      rw [hcongr]
      have hpos : 0 < inc0.countP (inMatch l.src l.type) := by
        rw [List.countP_pos_iff]
        exact List.any_eq_true.mp hc
      have hle := (hwf.2 _ _ hinc).2 l.src l.type
      omega
  · rw [if_neg hc, getA_setA_self]
    simp only [Option.getD_some]
    rw [List.countP_append]
    have h0 : ((getA g.incoming l.dst).getD []).countP (tripleP l.src l.dst l.type) = 0 := by
      rw [List.countP_eq_zero]
      intro a ha
      have := List.any_eq_false.mp (Bool.not_eq_true _ |>.mp hc) a ha
      simp only [inMatch] at this
      simp only [tripleP]
      intro hcontra
      rcases Bool.and_eq_true _ _ |>.mp hcontra with ⟨h1, h3⟩
      rcases Bool.and_eq_true _ _ |>.mp h1 with ⟨h4, h2⟩
      exact this (Bool.and_eq_true _ _ |>.mpr ⟨h4, h3⟩)
    rw [h0]
    simp [tripleP]

/-- Fold form of materializing an extension, shared by several proofs. -/
theorem materialize_append (P S : List Event) :
    materializeFromEvents (P ++ S) = S.foldl applyEvent (materializeFromEvents P) := by
  simp [materializeFromEvents, List.foldl_append]

/-- Claim C4: idempotent link re-add — re-adding an identical edge is a
no-op (second application returns the state of the first unchanged), and
after adding the same link twice on top of any replayed state, exactly
one edge with that (from,to,type) triple is present in the source's
outgoing bucket and in the target's incoming bucket. -/
theorem linkAdded_idempotent :
    (∀ (g : GraphState) (l : Link),
      applyEvent (applyEvent g (.linkAdded l)) (.linkAdded l) = applyEvent g (.linkAdded l)) ∧
    (∀ (es : List Event) (l : Link),
      countTriple
        ((getA (materializeFromEvents (es ++ [.linkAdded l, .linkAdded l])).outgoing l.src).getD [])
        l.src l.dst l.type = 1 ∧
      countTriple
        ((getA (materializeFromEvents (es ++ [.linkAdded l, .linkAdded l])).incoming l.dst).getD [])
        l.src l.dst l.type = 1) := by
  refine ⟨linkAdded_idem, fun es l => ?_⟩
  have heq : materializeFromEvents (es ++ [.linkAdded l, .linkAdded l]) =
      applyEvent (applyEvent (materializeFromEvents es) (.linkAdded l)) (.linkAdded l) := by
    rw [materialize_append]
    rfl
  rw [heq, linkAdded_idem]
  exact ⟨linkAdded_count_out _ l (linksWF_materialize es),
         linkAdded_count_in _ l (linksWF_materialize es)⟩

/- The invariant checker (`validateInvariants` in domain.ts). -/

/-- The two mutable sets of the depth-first search in `validateInvariants`:
ids currently on the recursion stack and ids fully explored. -/
structure DfsSt where
  visiting : List String
  visited : List String
deriving DecidableEq, Repr

/-- The recursive `dfs` closure of `validateInvariants`, with explicit
state passing and a fuel parameter for Lean termination.  The JS function
needs no fuel: each recursive level adds a fresh id to `visiting`, so its
depth is bounded by the number of ids in the graph; callers pass
`invariantFuel`, which exceeds that bound, making the 0-fuel branch
unreachable.  The loop over outgoing edges (`if l.type === "blocks" &&
dfs(l.to)) return true`) becomes a short-circuiting fold. -/
def dfsNode (g : GraphState) (fuel : Nat) (id : String) (st : DfsSt) : Bool × DfsSt :=
  if id ∈ st.visiting then (true, st)
  else if id ∈ st.visited then (false, st)
  else match fuel with
  | 0 => (false, st)
  | Nat.succ f =>
    let st1 : DfsSt := { st with visiting := id :: st.visiting }
    let r := ((getA g.outgoing id).getD []).foldl
      (fun acc l =>
        if acc.1 then acc
        else if l.type = .blocks then dfsNode g f l.dst acc.2
        else acc) (false, st1)
    if r.1 then (true, r.2)
    else (false, { visiting := r.2.visiting.erase id, visited := id :: r.2.visited })

/-- The outer loop of the cycle check: run `dfs` from each issue id in
map order, carrying the marking state across roots, and stop at the first
root whose search detects a back-edge. -/
def scanCycle (g : GraphState) (fuel : Nat) : List (String × Issue) → DfsSt → Option String
| [], _ => none
| (id, _) :: rest, st =>
  match dfsNode g fuel id st with
  | (true, _) => some id
  | (false, st2) => scanCycle g fuel rest st2

/-- Fuel bound exceeding the number of ids the search can ever stack. -/
def invariantFuel (g : GraphState) : Nat :=
  g.issues.length + g.outgoing.foldl (fun n p => n + p.2.length) 0 + 1

/-- The parent/child consistency test of the second loop: a done issue
with some parent-child child that is neither done nor canceled. -/
def parentViolation (g : GraphState) (id : String) (issue : Issue) : Bool :=
  decide (issue.status = .done) &&
  (((((getA g.outgoing id).getD []).filter (fun l => decide (l.type = .parentChild))).map
      (fun l => l.dst)).any
    (fun cid =>
      match getA g.issues cid with
      | some c => decide (c.status ≠ .done) && decide (c.status ≠ .canceled)
      | none => false))

/-- `validateInvariants` from domain.ts: at most one cycle error (the
first loop breaks at the first detection), then one violation line per
done parent with open children. -/
def validateInvariants (g : GraphState) : List String :=
  (match scanCycle g (invariantFuel g) g.issues ⟨[], []⟩ with
   | some id => ["cycle detected via " ++ id]
   | none => [])
  ++ g.issues.filterMap (fun p =>
      if parentViolation g p.1 p.2 then
        some ("parent " ++ p.1 ++ " done but has open children")
      else none)

/-- Recognizer for the cycle violation message format. -/
def isCycleMsg (s : String) : Bool := leadsWith ("cycle detected via ").data s.data

theorem isCycleMsg_parent (s : String) : isCycleMsg ("parent " ++ s) = false := by
  have h : ("parent " ++ s).data = 'p' :: ("arent ".data ++ s.data) := by
    rw [String.data_append]
    rfl
  have h2 : ("cycle detected via ").data = 'c' :: "ycle detected via ".data := rfl
  simp only [isCycleMsg, h, h2, leadsWith]
  simp

/-- In every graph, the checker reports at most one cycle message. -/
theorem validateInvariants_cycle_count (g : GraphState) :
    (validateInvariants g).countP isCycleMsg ≤ 1 := by
  unfold validateInvariants
  rw [List.countP_append]
  have h2 : (g.issues.filterMap (fun p =>
      if parentViolation g p.1 p.2 then
        some ("parent " ++ p.1 ++ " done but has open children")
      else none)).countP isCycleMsg = 0 := by
    rw [List.countP_eq_zero]
    intro a ha
    rw [List.mem_filterMap] at ha
    obtain ⟨p, hp, heq⟩ := ha
    by_cases hv : parentViolation g p.1 p.2 = true
    · rw [if_pos hv, Option.some_inj] at heq
      have hmsg := isCycleMsg_parent (p.1 ++ " done but has open children")
      rw [← String.append_assoc] at hmsg
      rw [heq] at hmsg
      simp [hmsg]
    · rw [if_neg hv] at heq
      simp at heq
  rw [h2]
  cases hsc : scanCycle g (invariantFuel g) g.issues ⟨[], []⟩ with
  | none => simp
  | some id =>
    simpa using List.countP_le_length (p := isCycleMsg)
      (l := ["cycle detected via " ++ id])

/-- A minimal open issue for the concrete invariant-checker graphs. -/
def mkIssue (id : String) (pr : Nat) (created : String) : Issue :=
  { id := id, title := id, body := none, kind := .feature, priority := pr,
    status := .openS, labels := [], createdAt := created, updatedAt := created,
    closedAt := none }

/-- A link with a fixed creation timestamp. -/
def mkLink (src dst : String) (ty : DepType) : Link :=
  { src := src, dst := dst, type := ty, createdAt := "T0" }

/-- Three issues with A blocks B blocks C blocks A. -/
def cycleGraph : GraphState := materializeFromEvents
  [.issueCreated (mkIssue "bd-a" 1 "T1"), .issueCreated (mkIssue "bd-b" 1 "T2"),
   .issueCreated (mkIssue "bd-c" 1 "T3"),
   .linkAdded (mkLink "bd-a" "bd-b" .blocks), .linkAdded (mkLink "bd-b" "bd-c" .blocks),
   .linkAdded (mkLink "bd-c" "bd-a" .blocks)]

/-- Three issues with the acyclic chain A blocks B blocks C. -/
def chainGraph : GraphState := materializeFromEvents
  [.issueCreated (mkIssue "bd-a" 1 "T1"), .issueCreated (mkIssue "bd-b" 1 "T2"),
   .issueCreated (mkIssue "bd-c" 1 "T3"),
   .linkAdded (mkLink "bd-a" "bd-b" .blocks), .linkAdded (mkLink "bd-b" "bd-c" .blocks)]

/-- A 3-cycle of "related" links only — no blocks edges. -/
def relatedCycleGraph : GraphState := materializeFromEvents
  [.issueCreated (mkIssue "bd-a" 1 "T1"), .issueCreated (mkIssue "bd-b" 1 "T2"),
   .issueCreated (mkIssue "bd-c" 1 "T3"),
   .linkAdded (mkLink "bd-a" "bd-b" .related), .linkAdded (mkLink "bd-b" "bd-c" .related),
   .linkAdded (mkLink "bd-c" "bd-a" .related)]

/-- Claim C5: the 3-node blocks cycle is flagged with a single violation
naming the id where the cycle was detected; the acyclic chain and a cycle
of non-blocks edges produce no violations; and in every graph at most one
cycle is reported. -/
theorem cycle_detection :
    validateInvariants cycleGraph = ["cycle detected via bd-a"] ∧
    validateInvariants chainGraph = [] ∧
    validateInvariants relatedCycleGraph = [] ∧
    (∀ g : GraphState, (validateInvariants g).countP isCycleMsg ≤ 1) :=
  ⟨by decide, by decide, by decide, validateInvariants_cycle_count⟩

/- The query layer (`ready` in query.ts) and the index builder
(`buildIndexes` in indexed_graph.ts). -/

/-- The blockers of an issue: incoming edges of type blocks
(`g.incoming.get(id) ?? []` filtered on type). -/
def blockersOf (g : GraphState) (id : String) : List Link :=
  ((getA g.incoming id).getD []).filter (fun l => decide (l.type = .blocks))

/-- `blockers.some(l => \x7b const up = g.issues.get(l.from); return up &&
up.status !== "done" && up.status !== "canceled" \x7d)`. -/
def hasOpenBlocker (g : GraphState) (id : String) : Bool :=
  (blockersOf g id).any (fun l =>
    match getA g.issues l.src with
    | some up => decide (up.status ≠ .done) && decide (up.status ≠ .canceled)
    | none => false)

/-- The optional filters of `ready` (kinds, priorities, label). -/
structure ReadyOpts where
  kinds : Option (List IssueKind)
  priorities : Option (List Nat)
  label : Option String

/-- Calling `ready` with no options. -/
def noFilters : ReadyOpts := ⟨none, none, none⟩

/-- The body of the `ready` loop as a predicate: the chain of `continue`
guards in query.ts. -/
def readyFilter (g : GraphState) (opts : ReadyOpts) (issue : Issue) : Bool :=
  (decide (issue.status = .openS) || decide (issue.status = .doing)) &&
  (match opts.kinds with | some ks => decide (issue.kind ∈ ks) | none => true) &&
  (match opts.priorities with | some ps => decide (issue.priority ∈ ps) | none => true) &&
  (match opts.label with | some lb => decide (lb ∈ issue.labels) | none => true) &&
  !(hasOpenBlocker g issue.id)

/-- The sort order of `ready`: the comparator
`a.priority - b.priority || a.createdAt.localeCompare(b.createdAt)` as a
total preorder (localeCompare modelled by lexicographic string order,
which agrees on ISO-8601 timestamps). -/
def readyLE (a b : Issue) : Prop :=
  a.priority < b.priority ∨ (a.priority = b.priority ∧ a.createdAt ≤ b.createdAt)

instance : DecidableRel readyLE := fun a b =>
  inferInstanceAs (Decidable (a.priority < b.priority ∨
    (a.priority = b.priority ∧ a.createdAt ≤ b.createdAt)))

instance : IsTotal Issue readyLE :=
  ⟨fun a b => by
    rcases Nat.lt_trichotomy a.priority b.priority with h | h | h
    · exact Or.inl (Or.inl h)
    · rcases le_total a.createdAt b.createdAt with hs | hs
      · exact Or.inl (Or.inr ⟨h, hs⟩)
      · exact Or.inr (Or.inr ⟨h.symm, hs⟩)
    · exact Or.inr (Or.inl h)⟩

instance : IsTrans Issue readyLE :=
  ⟨fun a b c hab hbc => by
    rcases hab with h1 | ⟨h1, s1⟩
    · rcases hbc with h2 | ⟨h2, s2⟩
      · exact Or.inl (h1.trans h2)
      · exact Or.inl (h2 ▸ h1)
    · rcases hbc with h2 | ⟨h2, s2⟩
      · exact Or.inl (h1 ▸ h2)
      · exact Or.inr ⟨h1.trans h2, s1.trans s2⟩⟩

/-- `ready` from query.ts: filter the issue values by the guard chain,
then stable-sort with the priority/createdAt comparator (JS `sort` is
stable; a stable sort by a total preorder is insertion sort). -/
def ready (g : GraphState) (opts : ReadyOpts) : List Issue :=
  List.insertionSort readyLE ((g.issues.map Prod.snd).filter (readyFilter g opts))

/-- JS `Set.prototype.add`: append if absent. -/
def setInsert (l : List String) (a : String) : List String :=
  if a ∈ l then l else l ++ [a]

/-- `if (!m.has(k)) m.set(k, new Set()); m.get(k).add(id)`. -/
def bumpA {κ : Type} [DecidableEq κ] (m : AList κ (List String)) (k : κ) (id : String) :
    AList κ (List String) :=
  setA m k (setInsert ((getA m k).getD []) id)

/-- The four indexes of indexed_graph.ts. -/
structure Indexes where
  byStatus : AList IssueStatus (List String)
  byPriority : AList Nat (List String)
  byLabel : AList String (List String)
  readyIssues : List String
deriving DecidableEq, Repr

/-- GraphState with the pre-computed indexes. -/
structure IndexedGraphState extends GraphState where
  indexes : Indexes
deriving DecidableEq, Repr

/-- The ready-membership test of `buildIndexes`, keyed on the map entry:
open/doing and no open blocker through the entry key. -/
def biReady (g : GraphState) (p : String × Issue) : Bool :=
  (decide (p.2.status = .openS) || decide (p.2.status = .doing)) && !(hasOpenBlocker g p.1)

/-- One iteration of the `buildIndexes` loop over `[id, issue]` entries. -/
def indexStep (g : GraphState) (acc : Indexes) (p : String × Issue) : Indexes :=
  { byStatus := bumpA acc.byStatus p.2.status p.1
    byPriority := bumpA acc.byPriority p.2.priority p.1
    byLabel := p.2.labels.foldl (fun m lb => bumpA m lb p.1) acc.byLabel
    readyIssues :=
      if biReady g p then setInsert acc.readyIssues p.1 else acc.readyIssues }

/-- `buildIndexes` from indexed_graph.ts: one pass over all issues
recording status/priority/label memberships and ready-set membership. -/
def buildIndexes (g : GraphState) : IndexedGraphState :=
  { toGraphState := g, indexes := g.issues.foldl (indexStep g) ⟨[], [], [], []⟩ }

/-- What a JS Map guarantees about the issues map, plus the replay
invariant that entries are keyed by their issue's id: keys are unique and
each value's id is its key. -/
def KeysOk (g : GraphState) : Prop :=
  (g.issues.map Prod.fst).Nodup ∧ ∀ p ∈ g.issues, p.2.id = p.1

/-- The specification-level ready condition: open/doing, and no blocks
predecessor that exists has a status other than done/canceled. -/
def ReadyCond (g : GraphState) (id : String) (issue : Issue) : Prop :=
  (issue.status = .openS ∨ issue.status = .doing) ∧
  ∀ l ∈ blockersOf g id, ∀ up, getA g.issues l.src = some up →
    (up.status = .done ∨ up.status = .canceled)

theorem hasOpenBlocker_false_iff (g : GraphState) (id : String) :
    hasOpenBlocker g id = false ↔
      (∀ l ∈ blockersOf g id, ∀ up, getA g.issues l.src = some up →
        (up.status = .done ∨ up.status = .canceled)) := by
  rw [hasOpenBlocker, List.any_eq_false]
  constructor
  · intro h l hl up hup
    have hcontra := h l hl
    rw [hup] at hcontra
    by_contra hcon
    push_neg at hcon
    exact hcontra (by simp [hcon.1, hcon.2])
  · intro h l hl
    cases hup : getA g.issues l.src with
    | none => simp
    | some up =>
      have := h l hl up hup
      simp only [Bool.and_eq_true, decide_eq_true_eq, not_and]
      intro hd
      rcases this with hc | hc
      · exact absurd hc hd
      · intro hcc; exact hcc hc

theorem biReady_iff (g : GraphState) (id : String) (issue : Issue) :
    biReady g (id, issue) = true ↔ ReadyCond g id issue := by
  unfold biReady ReadyCond
  rw [Bool.and_eq_true, Bool.or_eq_true, Bool.not_eq_true']
  rw [hasOpenBlocker_false_iff]
  simp only [decide_eq_true_eq]

theorem readyFilter_noFilters_iff (g : GraphState) (issue : Issue) :
    readyFilter g noFilters issue = true ↔ ReadyCond g issue.id issue := by
  unfold readyFilter ReadyCond
  simp only [noFilters, Bool.and_eq_true, Bool.or_eq_true, decide_eq_true_eq,
    Bool.not_eq_true', and_true]
  rw [hasOpenBlocker_false_iff]

theorem mem_setInsert (l : List String) (a b : String) :
    a ∈ setInsert l b ↔ a ∈ l ∨ a = b := by
  unfold setInsert
  by_cases h : b ∈ l
  · simp only [if_pos h]
    constructor
    · exact Or.inl
    · rintro (ha | rfl)
      · exact ha
      · exact h
  · simp [if_neg h]

theorem mem_readyIssues_foldl (g : GraphState) (entries : List (String × Issue))
    (init : Indexes) (id : String) :
    (id ∈ (entries.foldl (indexStep g) init).readyIssues ↔
      id ∈ init.readyIssues ∨ ∃ p ∈ entries, p.1 = id ∧ biReady g p = true) := by
  induction entries generalizing init with
  | nil => simp
  | cons q rest ih =>
    rw [List.foldl_cons, ih]
    by_cases hb : biReady g q = true
    · have hri : (indexStep g init q).readyIssues = setInsert init.readyIssues q.1 := by
        simp [indexStep, hb]
      rw [hri, mem_setInsert, List.exists_mem_cons_iff]
      constructor
      · rintro ((h | rfl) | h)
        · exact Or.inl h
        · exact Or.inr (Or.inl ⟨rfl, hb⟩)
        · exact Or.inr (Or.inr h)
      · rintro (h | (⟨rfl, _⟩ | h))
        · exact Or.inl (Or.inl h)
        · exact Or.inl (Or.inr rfl)
        · exact Or.inr h
    · have hri : (indexStep g init q).readyIssues = init.readyIssues := by
        simp [indexStep, hb]
      rw [hri, List.exists_mem_cons_iff]
      constructor
      · rintro (h | h)
        · exact Or.inl h
        · exact Or.inr (Or.inr h)
      · rintro (h | (⟨_, hcon⟩ | h))
        · exact Or.inl h
        · exact absurd hcon hb
        · exact Or.inr h

theorem keysNodup_entry_eq {α : Type} (l : List (String × α))
    (hnd : (l.map Prod.fst).Nodup) (p q : String × α)
    (hp : p ∈ l) (hq : q ∈ l) (h : p.1 = q.1) : p = q := by
  induction l with
  | nil => simp at hp
  | cons hd t ih =>
    simp only [List.map_cons, List.nodup_cons] at hnd
    rcases List.mem_cons.mp hp with rfl | hp2
    · rcases List.mem_cons.mp hq with rfl | hq2
      · rfl
      · exact absurd (h ▸ List.mem_map_of_mem Prod.fst hq2) hnd.1
    · rcases List.mem_cons.mp hq with rfl | hq2
      · exact absurd (h ▸ List.mem_map_of_mem Prod.fst hp2) hnd.1
      · exact ih hnd.2 hp2 hq2

theorem buildIndexes_ready_mem (g : GraphState) (hk : KeysOk g)
    (id : String) (issue : Issue) (hmem : (id, issue) ∈ g.issues) :
    (id ∈ (buildIndexes g).indexes.readyIssues ↔ biReady g (id, issue) = true) := by
  unfold buildIndexes
  rw [mem_readyIssues_foldl]
  simp only [List.not_mem_nil, false_or]
  constructor
  · rintro ⟨p, hp, hpid, hpr⟩
    have : p = (id, issue) :=
      keysNodup_entry_eq g.issues hk.1 p (id, issue) hp hmem hpid
    rwa [this] at hpr
  · intro h
    exact ⟨(id, issue), hmem, rfl, h⟩

theorem ready_mem_iff (g : GraphState) (issue : Issue) :
    issue ∈ ready g noFilters ↔
      issue ∈ g.issues.map Prod.snd ∧ readyFilter g noFilters issue = true := by
  unfold ready
  rw [List.mem_insertionSort, List.mem_filter]

/-- Claim C6: ready-set correctness and ordering — for states keyed like
JS Maps (unique keys equal to issue ids), an issue is in the
`buildIndexes` ready set, and is returned by `ready` with no filters, iff
it is open/doing with no existing blocks-predecessor outside
done/canceled; and the output of `ready` is sorted by priority then
creation time. -/
theorem ready_set_spec (g : GraphState) (hk : KeysOk g) :
    (∀ id issue, (id, issue) ∈ g.issues →
      ((id ∈ (buildIndexes g).indexes.readyIssues ↔ ReadyCond g id issue) ∧
       (issue ∈ ready g noFilters ↔ ReadyCond g id issue))) ∧
    List.Sorted readyLE (ready g noFilters) := by
  constructor
  · intro id issue hmem
    have hid : issue.id = id := hk.2 (id, issue) hmem
    constructor
    · rw [buildIndexes_ready_mem g hk id issue hmem, biReady_iff]
    · rw [ready_mem_iff, readyFilter_noFilters_iff, hid]
      constructor
      · exact fun h => h.2
      · intro h
        exact ⟨List.mem_map_of_mem Prod.snd hmem, h⟩
  · exact List.sorted_insertionSort readyLE _

/-- One-issue graph used by the query witnesses. -/
def gOne : GraphState := materializeFromEvents [.issueCreated issueA]

/-- Witness for C6: in the one-issue graph, the issue is in both ready
sets. -/
theorem ready_set_spec_witness :
    "bd-a" ∈ (buildIndexes gOne).indexes.readyIssues ∧ issueA ∈ ready gOne noFilters := by
  have h := (ready_set_spec gOne ⟨by decide, by decide⟩).1 "bd-a" issueA (by decide)
  have hcond : ReadyCond gOne "bd-a" issueA := by
    refine ⟨Or.inl rfl, ?_⟩
    intro l hl
    have hb : blockersOf gOne "bd-a" = [] := by decide
    rw [hb] at hl
    simp at hl
  exact ⟨h.1.mpr hcond, h.2.mpr hcond⟩

/-- Claim C9 (implicit): dangling blockers do not block — an open/doing
issue all of whose blocks-predecessors reference ids absent from the
issues map is in the `buildIndexes` ready set and returned by `ready`. -/
theorem dangling_blockers_ready (g : GraphState) (hk : KeysOk g)
    (id : String) (issue : Issue) (hmem : (id, issue) ∈ g.issues)
    (hstatus : issue.status = .openS ∨ issue.status = .doing)
    (hdangling : ∀ l ∈ blockersOf g id, getA g.issues l.src = none) :
    id ∈ (buildIndexes g).indexes.readyIssues ∧ issue ∈ ready g noFilters := by
  have hid : issue.id = id := hk.2 (id, issue) hmem
  have hcond : ReadyCond g id issue := by
    refine ⟨hstatus, ?_⟩
    intro l hl up hup
    rw [hdangling l hl] at hup
    cases hup
  constructor
  · exact (buildIndexes_ready_mem g hk id issue hmem).mpr ((biReady_iff g id issue).mpr hcond)
  · rw [ready_mem_iff]
    refine ⟨List.mem_map_of_mem Prod.snd hmem, ?_⟩
    rw [readyFilter_noFilters_iff, hid]
    exact hcond

/-- One open issue blocked only by a link from a non-existent id. -/
def gDangling : GraphState := materializeFromEvents
  [.issueCreated issueA, .linkAdded (mkLink "bd-ghost" "bd-a" .blocks)]

/-- Witness for C9: the dangling-blocked issue is ready. -/
theorem dangling_blockers_ready_witness :
    "bd-a" ∈ (buildIndexes gDangling).indexes.readyIssues ∧
      issueA ∈ ready gDangling noFilters := by
  exact dangling_blockers_ready gDangling ⟨by decide, by decide⟩ "bd-a" issueA
    (by decide) (Or.inl rfl) (by decide)

/- The full-replay store scan loop (`scan` in store_jsonl.ts). -/

/-- Decidable equality on host results, used by the concrete scan
examples. -/
instance {ε α : Type} [DecidableEq ε] [DecidableEq α] : DecidableEq (Except ε α)
| .ok a, .ok b =>
  if h : a = b then .isTrue (by rw [h]) else .isFalse (by intro hc; cases hc; exact h rfl)
| .ok _, .error _ => .isFalse (by intro hc; cases hc)
| .error _, .ok _ => .isFalse (by intro hc; cases hc)
| .error e, .error f =>
  if h : e = f then .isTrue (by rw [h]) else .isFalse (by intro hc; cases hc; exact h rfl)

/-- JS `if (line.trim())` — the line is skipped iff every character is
whitespace.  (`String.prototype.trim` strips whitespace from both ends,
so the trimmed line is truthy exactly when some character is not
whitespace.) -/
def isBlankLine (s : String) : Bool := s.data.all Char.isWhitespace

/-- The per-file parse loop of `scan`: JSON-parse each non-blank line,
numbering lines from 1, and abort with a ParseError carrying the line
number, the raw line and the parser's reason at the first failure.  The
host `JSON.parse` composed with the event decoding is abstracted as the
`parse` argument. -/
def scanLines (parse : String → Except String Event) :
    List String → Nat → Except StoreError (List Event)
| [], _ => .ok []
| line :: rest, n =>
  if isBlankLine line then scanLines parse rest (n + 1)
  else
    match parse line with
    | .ok e =>
      match scanLines parse rest (n + 1) with
      | .ok es => .ok (e :: es)
      | .error pe => .error pe
    | .error reason => .error (.parseError n line reason)

/-- `scan`: parse the issues file, then the links file, concatenating the
events (issues first); any parse error aborts the whole scan.  A missing
file is treated as the empty line list by the caller. -/
def scanStore (parse : String → Except String Event) (issuesLines linksLines : List String) :
    Except StoreError (List Event) :=
  match scanLines parse issuesLines 1 with
  | .error e => .error e
  | .ok a =>
    match scanLines parse linksLines 1 with
    | .error e => .error e
    | .ok b => .ok (a ++ b)

/-- Every non-blank line of the list parses. -/
def allParse (parse : String → Except String Event) (lines : List String) : Prop :=
  ∀ line ∈ lines, isBlankLine line = false → ∃ e, parse line = .ok e

/-- The events of the non-blank lines, in order. -/
def collectEvents (parse : String → Except String Event) (lines : List String) : List Event :=
  lines.filterMap (fun line => if isBlankLine line then none else (parse line).toOption)

theorem scanLines_ok_of_allParse (parse : String → Except String Event)
    (lines : List String) (n : Nat) (h : allParse parse lines) :
    scanLines parse lines n = .ok (collectEvents parse lines) := by
  induction lines generalizing n with
  | nil => simp [scanLines, collectEvents]
  | cons line rest ih =>
    have hrest : allParse parse rest := fun l hl => h l (List.mem_cons_of_mem _ hl)
    by_cases hb : isBlankLine line = true
    · rw [scanLines, if_pos hb, ih (n + 1) hrest]
      simp [collectEvents, hb]
    · have hb2 : isBlankLine line = false := Bool.not_eq_true _ |>.mp hb
      obtain ⟨e, he⟩ := h line (List.mem_cons_self _ _) hb2
      rw [scanLines, if_neg hb, he, ih (n + 1) hrest]
      simp [collectEvents, List.filterMap_cons, hb2, he, Except.toOption]

theorem scanLines_error_char (parse : String → Except String Event)
    (lines : List String) :
    ∀ (n m : Nat) (c r : String),
      scanLines parse lines n = .error (.parseError m c r) →
      n ≤ m ∧ isBlankLine c = false ∧ parse c = .error r ∧ lines[m - n]? = some c := by
  induction lines with
  | nil => intro n m c r h; simp [scanLines] at h
  | cons line rest ih =>
    intro n m c r h
    by_cases hb : isBlankLine line = true
    · rw [scanLines, if_pos hb] at h
      obtain ⟨hle, hblank, hpe, hget⟩ := ih (n + 1) m c r h
      refine ⟨Nat.le_of_succ_le hle, hblank, hpe, ?_⟩
      have harith : m - n = (m - (n + 1)) + 1 := by omega
      rw [harith, List.getElem?_cons_succ]
      exact hget
    · rw [scanLines, if_neg hb] at h
      cases hp : parse line with
      | ok e =>
        rw [hp] at h
        cases hr : scanLines parse rest (n + 1) with
        | ok es => rw [hr] at h; simp at h
        | error pe =>
          rw [hr] at h
          cases h
          obtain ⟨hle, hblank, hpe, hget⟩ := ih (n + 1) m c r hr
          refine ⟨Nat.le_of_succ_le hle, hblank, hpe, ?_⟩
          have harith : m - n = (m - (n + 1)) + 1 := by omega
          rw [harith, List.getElem?_cons_succ]
          exact hget
      | error reason =>
        rw [hp] at h
        cases h
        refine ⟨Nat.le_refl _, Bool.not_eq_true _ |>.mp hb, hp, ?_⟩
        simp

theorem scanLines_error_of_bad (parse : String → Except String Event)
    (lines : List String) (n : Nat) (hbad : ¬ allParse parse lines) :
    ∃ m c r, scanLines parse lines n = .error (.parseError m c r) := by
  induction lines generalizing n with
  | nil => exact absurd (by intro l hl; simp at hl) hbad
  | cons line rest ih =>
    by_cases hb : isBlankLine line = true
    · rw [scanLines, if_pos hb]
      refine ih (n + 1) (fun hrest => hbad ?_)
      intro l hl hbl
      rcases List.mem_cons.mp hl with rfl | hl2
      · rw [hb] at hbl; cases hbl
      · exact hrest l hl2 hbl
    · rw [scanLines, if_neg hb]
      cases hp : parse line with
      | error reason => exact ⟨n, line, reason, rfl⟩
      | ok e =>
        have hrbad : ¬ allParse parse rest := by
          intro hrest
          apply hbad
          intro l hl hbl
          rcases List.mem_cons.mp hl with rfl | hl2
          · exact ⟨e, hp⟩
          · exact hrest l hl2 hbl
        obtain ⟨m, c, r, hpe⟩ := ih (n + 1) hrbad
        rw [hpe]
        exact ⟨m, c, r, rfl⟩

/-- A stub for the host JSON parser used by the concrete scan examples:
"E" decodes to an event, everything else is a syntax error. -/
def parseStub (s : String) : Except String Event :=
  if s = "E" then .ok (.issueCreated issueA) else .error "Unexpected token"

/-- Counterexample for C8: the ParseError carries no file path — a bad
first line in the issues file and a bad first line in the links file
produce the very same error value, so the error cannot identify the
file.  (ports.ts `ParseError` has only line, content and reason fields.) -/
theorem scan_parseError_no_path :
    scanStore parseStub ["@"] [] = .error (.parseError 1 "@" "Unexpected token") ∧
    scanStore parseStub [] ["@"] = .error (.parseError 1 "@" "Unexpected token") := by
  constructor <;> decide

/-- Claim C8 (amended): scan succeeds iff every non-blank line of both
files parses, in which case it returns all events, issues file first; a
failure aborts the call with a ParseError identifying the line number,
the raw line content and the parse reason (but not the file path), with
no partial event list. -/
theorem scan_aborts_on_parse_error (parse : String → Except String Event)
    (iL lL : List String) :
    ((allParse parse iL ∧ allParse parse lL) →
      scanStore parse iL lL = .ok (collectEvents parse iL ++ collectEvents parse lL)) ∧
    (¬ (allParse parse iL ∧ allParse parse lL) →
      ∃ n c r, scanStore parse iL lL = .error (.parseError n c r)) ∧
    (∀ n c r, scanStore parse iL lL = .error (.parseError n c r) →
      isBlankLine c = false ∧ parse c = .error r ∧
        (iL[n - 1]? = some c ∨ lL[n - 1]? = some c)) := by
  refine ⟨?_, ?_, ?_⟩
  · rintro ⟨hi, hl⟩
    rw [scanStore, scanLines_ok_of_allParse parse iL 1 hi,
      scanLines_ok_of_allParse parse lL 1 hl]
  · intro hbad
    rw [scanStore]
    by_cases hi : allParse parse iL
    · have hlbad : ¬ allParse parse lL := fun hl => hbad ⟨hi, hl⟩
      rw [scanLines_ok_of_allParse parse iL 1 hi]
      obtain ⟨m, c, r, hpe⟩ := scanLines_error_of_bad parse lL 1 hlbad
      rw [hpe]
      exact ⟨m, c, r, rfl⟩
    · obtain ⟨m, c, r, hpe⟩ := scanLines_error_of_bad parse iL 1 hi
      rw [hpe]
      exact ⟨m, c, r, rfl⟩
  · intro n c r h
    rw [scanStore] at h
    cases hil : scanLines parse iL 1 with
    | error pe =>
      rw [hil] at h
      cases h
      obtain ⟨_, hb, hp, hg⟩ := scanLines_error_char parse iL 1 n c r hil
      exact ⟨hb, hp, Or.inl hg⟩
    | ok a =>
      rw [hil] at h
      cases hll : scanLines parse lL 1 with
      | error pe =>
        rw [hll] at h
        cases h
        obtain ⟨_, hb, hp, hg⟩ := scanLines_error_char parse lL 1 n c r hll
        exact ⟨hb, hp, Or.inr hg⟩
      | ok b =>
        rw [hll] at h
        cases h

/-- Witness for the amended C8: the all-good and the aborting cases at
concrete inputs. -/
theorem scan_aborts_on_parse_error_witness :
    scanStore parseStub ["E", ""] ["E"] =
      .ok [.issueCreated issueA, .issueCreated issueA] ∧
    (∃ n c r, scanStore parseStub ["E", "@"] [] = .error (.parseError n c r)) := by
  have hE : parseStub "E" = .ok (.issueCreated issueA) := by decide
  have hGood : ∀ l ∈ (["E"] : List String), isBlankLine l = false → ∃ e, parseStub l = .ok e := by
    intro l hl hbl
    rcases List.mem_cons.mp hl with rfl | hl2
    · exact ⟨_, hE⟩
    · simp at hl2
  have hGood2 : allParse parseStub ["E", ""] := by
    intro l hl hbl
    rcases List.mem_cons.mp hl with rfl | hl2
    · exact ⟨_, hE⟩
    · simp only [List.mem_singleton] at hl2
      subst hl2
      have : isBlankLine "" = true := by decide
      rw [this] at hbl
      cases hbl
  constructor
  · have h := (scan_aborts_on_parse_error parseStub ["E", ""] ["E"]).1
    rw [h ⟨hGood2, hGood⟩]
    decide
  · refine (scan_aborts_on_parse_error parseStub ["E", "@"] []).2.1 ?_
    rintro ⟨hi, _⟩
    obtain ⟨e, he⟩ := hi "@" (by simp) (by decide)
    rw [show parseStub "@" = .error "Unexpected token" from by decide] at he
    cases he

end Trinkets
